import Mathlib

/-!
Verification of the Sanctuary Builder backend's computation layer: the
progress/streak statistics (`progress_stats`, `complete_today` in
`src/main.py`) and the order-total aggregation (`create_order`).

Modelling conventions:
* Calendar dates are proleptic Gregorian ordinals (`ℤ`), as produced by
  Python's `date.toordinal`; stepping back one day is subtracting 1.
* `datetime.strptime(s, "%Y-%m-%d")` is modelled by `strptimeYMD`,
  following CPython's `_strptime` regex for `%Y`, `%m`, `%d` and the
  `datetime.date` range validation; failure is `none`.
* Python's stable `list.sort(key=...)` is modelled by insertion sort with
  the same key, which is also stable.
* The unbounded `while day_ptr in completed_dates` loop is modelled by
  `streakFuel` with fuel `card + 1`; the finite set bounds the number of
  successful membership tests, so this fuel is never exhausted (this is
  borne out by the walk-back characterisation proved below).
* Monetary values are exact rationals; Python's `round(x, 2)` is modelled
  by `pyRound2`, rounding half to even at two decimals.
-/

namespace Sanctuary

/-! ### Calendar dates -/

def isLeapYear (y : ℕ) : Bool :=
  (y % 4 == 0 && y % 100 != 0) || (y % 400 == 0)

def daysInMonth (y m : ℕ) : ℕ :=
  if m = 2 then (if isLeapYear y then 29 else 28)
  else if m = 4 ∨ m = 6 ∨ m = 9 ∨ m = 11 then 30
  else 31

def daysBeforeMonth (y m : ℕ) : ℕ :=
  (List.range (m - 1)).foldl (fun acc i => acc + daysInMonth y (i + 1)) 0

def toOrdinal (y m d : ℕ) : ℤ :=
  ((365 * (y - 1) + (y - 1) / 4 - (y - 1) / 100 + (y - 1) / 400
      + daysBeforeMonth y m + d : ℕ) : ℤ)

/-! ### `datetime.strptime(s, "%Y-%m-%d")` -/

def splitOnDash : List Char → List (List Char)
  | [] => [[]]
  | c :: cs =>
    if c = '-' then [] :: splitOnDash cs
    else
      match splitOnDash cs with
      | [] => [[c]]
      | p :: ps => (c :: p) :: ps

def digitsVal? (cs : List Char) : Option ℕ :=
  if cs ≠ [] ∧ cs.all Char.isDigit then
    some (cs.foldl (fun n c => 10 * n + (c.toNat - 48)) 0)
  else none

def matchYear (cs : List Char) : Option ℕ :=
  if cs.length = 4 then digitsVal? cs else none

def matchField (hi : ℕ) (cs : List Char) : Option ℕ :=
  if cs.length = 1 ∨ cs.length = 2 then
    match digitsVal? cs with
    | some v => if 1 ≤ v ∧ v ≤ hi then some v else none
    | none => none
  else none

def strptimeYMD (s : String) : Option ℤ :=
  match splitOnDash s.data with
  | [ys, ms, ds] =>
    match matchYear ys, matchField 12 ms, matchField 31 ds with
    | some y, some m, some d =>
      if 1 ≤ y ∧ d ≤ daysInMonth y m then some (toOrdinal y m d) else none
    | _, _, _ => none
  | _ => none

/-! ### Progress records and `progress_stats` -/

/-- The `date` field of a stored progress document: a string, an actual
date object, or anything else (`parse_d` in the source handles all
three). -/
inductive DateField where
  | str (s : String)
  | dateObj (d : ℤ)
  | other
deriving DecidableEq

/-- `parse_d` from `progress_stats` in `src/main.py`. -/
def parse_d : DateField → Option ℤ
  | .str s => strptimeYMD s
  | .dateObj d => some d
  | .other => none

structure ProgressRec where
  date : DateField
  completed : Bool
  points_earned : ℤ
deriving DecidableEq

structure Stats where
  days_completed : ℕ
  current_streak : ℕ
  total_points : ℤ
deriving DecidableEq

def dateKey (i : ProgressRec) : ℤ := (parse_d i.date).getD 0

/-- `items = [i for i in items if parse_d(i.get("date")) is not None]` -/
def parseableItems (records : List ProgressRec) : List ProgressRec :=
  records.filter (fun i => (parse_d i.date).isSome)

/-- `items.sort(key=lambda x: parse_d(x.get("date")))` (stable sort). -/
def sortedItems (records : List ProgressRec) : List ProgressRec :=
  (parseableItems records).insertionSort (fun a b => dateKey a ≤ dateKey b)

/-- `completed_dates = {parse_d(i.get("date")) for i in items if i.get("completed")}` -/
def completedDates (records : List ProgressRec) : Finset ℤ :=
  ((sortedItems records).filterMap
    (fun i => if i.completed then parse_d i.date else none)).toFinset

/-- The `while day_ptr in completed_dates` loop, with explicit fuel. -/
def streakFuel : ℕ → Finset ℤ → ℤ → ℕ
  | 0, _, _ => 0
  | fuel + 1, s, d => if d ∈ s then streakFuel fuel s (d - 1) + 1 else 0

/-- `progress_stats` from `src/main.py` (`today` passed explicitly). -/
def progress_stats (records : List ProgressRec) (today : ℤ) : Stats :=
  { days_completed := (completedDates records).card
    current_streak :=
      streakFuel ((completedDates records).card + 1) (completedDates records) today
    total_points := ((sortedItems records).map (fun i => i.points_earned)).sum }

/-! ### `complete_today` -/

structure CompleteDoc where
  user_id : String
  date : ℤ
  completed : Bool
  points_earned : ℤ
deriving DecidableEq

structure CompleteResponse where
  points_earned : ℤ
deriving DecidableEq

/-- `complete_today` from `src/main.py`: the stored document and the
response body (`today` passed explicitly, the store id omitted). -/
def complete_today (user_id : String) (payload_date : Option ℤ) (today : ℤ) :
    CompleteDoc × CompleteResponse :=
  let target_date := payload_date.getD today
  ({ user_id := user_id, date := target_date, completed := true, points_earned := 10 },
   { points_earned := 10 })

/-! ### Orders -/

/-- One entry of `payload.items`; `qty` and `price` may be absent. -/
structure OrderItem where
  qty : Option ℚ
  price : Option ℚ
deriving DecidableEq

structure OrderRecord where
  user_id : String
  items : List OrderItem
  total_amount : ℚ
  currency : String
  status : String
deriving DecidableEq

structure OrderResponse where
  total_amount : ℚ
deriving DecidableEq

/-- Round half to even to an integer (Python's `round` on exact values). -/
def roundHalfEven (q : ℚ) : ℤ :=
  let f := ⌊q⌋
  let r := q - f
  if r < 1 / 2 then f
  else if 1 / 2 < r then f + 1
  else if f % 2 = 0 then f else f + 1

/-- Python's `round(x, 2)`. -/
def pyRound2 (q : ℚ) : ℚ := (roundHalfEven (100 * q) : ℚ) / 100

/-- `create_order` from `src/main.py`: the stored record and the response
body (the store id omitted). -/
def create_order (user_id : String) (items : List OrderItem) (currency : String) :
    OrderRecord × OrderResponse :=
  let total : ℚ :=
    items.foldl (fun t item => t + (item.qty.getD 1) * (item.price.getD 0)) 0
  let record : OrderRecord :=
    { user_id := user_id
      items := items
      total_amount := pyRound2 total
      currency := currency
      status := "pending" }
  (record, { total_amount := record.total_amount })

/-! ### Specification-side definitions and concrete sample data -/

/-- The set of distinct parseable calendar days having at least one record
with `completed == true`, written directly from the spec's description of
`days_completed`. -/
def specCompletedDays (records : List ProgressRec) : Finset ℤ :=
  (records.filterMap (fun r => if r.completed then parse_d r.date else none)).toFinset

def demoRecords : List ProgressRec :=
  [⟨.str "2025-01-01", true, 10⟩, ⟨.str "2025-01-02", true, 10⟩]

def demoRecordsRev : List ProgressRec :=
  [⟨.str "2025-01-02", true, 10⟩, ⟨.str "2025-01-01", true, 10⟩]

def demoToday : ℤ := toOrdinal 2025 1 2

/-! ### Helper lemmas -/

theorem sortedItems_perm (records : List ProgressRec) :
    (sortedItems records).Perm (parseableItems records) :=
  List.perm_insertionSort _ _

theorem filterMap_parseable (records : List ProgressRec) :
    (parseableItems records).filterMap (fun i => if i.completed then parse_d i.date else none)
      = records.filterMap (fun r => if r.completed then parse_d r.date else none) := by
  induction records with
  | nil => rfl
  | cons r rs ih =>
    by_cases hp : (parse_d r.date).isSome
    · simp only [parseableItems, List.filter_cons, hp, if_true, List.filterMap_cons] at *
      rw [ih]
    · have hnone : parse_d r.date = none := Option.not_isSome_iff_eq_none.mp hp
      simp only [parseableItems, List.filter_cons, hp, if_false, List.filterMap_cons,
        hnone, ite_self] at *
      exact ih

theorem completedDates_eq (records : List ProgressRec) :
    completedDates records = specCompletedDays records := by
  unfold completedDates specCompletedDays
  have h1 : ((sortedItems records).filterMap
        (fun i => if i.completed then parse_d i.date else none)).toFinset
      = ((parseableItems records).filterMap
        (fun i => if i.completed then parse_d i.date else none)).toFinset :=
    List.toFinset.ext_iff.mpr fun x => ((sortedItems_perm records).filterMap _).mem_iff
  rw [h1, filterMap_parseable]

theorem total_points_eq (records : List ProgressRec) :
    ((sortedItems records).map (fun i => i.points_earned)).sum
      = ((parseableItems records).map (fun i => i.points_earned)).sum :=
  ((sortedItems_perm records).map _).sum_eq

theorem days_unchanged_of_mem (records : List ProgressRec) (r : ProgressRec) (d : ℤ)
    (hparse : parse_d r.date = some d) (hmem : d ∈ specCompletedDays records) :
    completedDates (r :: records) = completedDates records := by
  rw [completedDates_eq, completedDates_eq]
  unfold specCompletedDays
  rw [List.filterMap_cons]
  cases hc : r.completed
  · simp
  · simp only [if_true, hparse, List.toFinset_cons]
    exact Finset.insert_eq_self.mpr hmem

theorem streakFuel_eq_of (fuel : ℕ) (s : Finset ℤ) (d : ℤ) (N : ℕ)
    (hmem : ∀ k < N, d - (k : ℤ) ∈ s) (hout : d - (N : ℤ) ∉ s) (hfuel : N < fuel) :
    streakFuel fuel s d = N := by
  induction fuel generalizing d N with
  | zero => omega
  | succ fuel ih =>
    cases N with
    | zero =>
      have hd : d ∉ s := by simpa using hout
      simp [streakFuel, hd]
    | succ M =>
      have hd : d ∈ s := by simpa using hmem 0 (Nat.succ_pos M)
      have h1 : ∀ k < M, d - 1 - (k : ℤ) ∈ s := by
        intro k hk
        have h2 := hmem (k + 1) (by omega)
        push_cast at h2
        have h3 : d - 1 - (k : ℤ) = d - ((k : ℤ) + 1) := by ring
        rwa [h3]
      have h4 : d - 1 - (M : ℤ) ∉ s := by
        push_cast at hout
        have h5 : d - 1 - (M : ℤ) = d - ((M : ℤ) + 1) := by ring
        rwa [h5]
      simp [streakFuel, hd, ih (d - 1) M h1 h4 (by omega)]

theorem exists_break (s : Finset ℤ) (d : ℤ) :
    ∃ k ≤ s.card, d - (k : ℤ) ∉ s := by
  by_contra hcon
  push_neg at hcon
  have hsub : (Finset.range (s.card + 1)).image (fun k : ℕ => d - (k : ℤ)) ⊆ s := by
    intro x hx
    rw [Finset.mem_image] at hx
    obtain ⟨k, hk, rfl⟩ := hx
    exact hcon k (Nat.lt_succ_iff.mp (Finset.mem_range.mp hk))
  have hinj : Set.InjOn (fun k : ℕ => d - (k : ℤ)) ↑(Finset.range (s.card + 1)) := by
    intro a _ b _ hab
    simp only at hab
    omega
  have hcard : ((Finset.range (s.card + 1)).image (fun k : ℕ => d - (k : ℤ))).card
      = s.card + 1 := by
    rw [Finset.card_image_of_injOn hinj, Finset.card_range]
  have hle := Finset.card_le_card hsub
  omega

theorem streak_walkback (s : Finset ℤ) (d : ℤ) :
    ∃ N ≤ s.card, (∀ k < N, d - (k : ℤ) ∈ s) ∧ d - (N : ℤ) ∉ s ∧
      streakFuel (s.card + 1) s d = N := by
  classical
  obtain ⟨k0, hk0, hP⟩ := exists_break s d
  have hex : ∃ k : ℕ, d - (k : ℤ) ∉ s := ⟨k0, hP⟩
  have hle : Nat.find hex ≤ s.card := le_trans (Nat.find_min' hex hP) hk0
  have hin : ∀ k < Nat.find hex, d - (k : ℤ) ∈ s := by
    intro k hk
    exact not_not.mp (Nat.find_min hex hk)
  exact ⟨Nat.find hex, hle, hin, Nat.find_spec hex,
    streakFuel_eq_of _ s d _ hin (Nat.find_spec hex) (by omega)⟩

theorem walkback_unique (s : Finset ℤ) (d : ℤ) (N M : ℕ)
    (hN1 : ∀ k < N, d - (k : ℤ) ∈ s) (hN2 : d - (N : ℤ) ∉ s)
    (hM1 : ∀ k < M, d - (k : ℤ) ∈ s) (hM2 : d - (M : ℤ) ∉ s) : N = M := by
  rcases Nat.lt_trichotomy N M with h | h | h
  · exact absurd (hM1 N h) hN2
  · exact h
  · exact absurd (hN1 M h) hM2

theorem foldl_items_sum (items : List OrderItem) (init : ℚ) :
    items.foldl (fun t item => t + (item.qty.getD 1) * (item.price.getD 0)) init
      = init + (items.map (fun item => (item.qty.getD 1) * (item.price.getD 0))).sum := by
  induction items generalizing init with
  | nil => simp
  | cons i is ih =>
    simp only [List.foldl_cons, List.map_cons, List.sum_cons, ih]
    ring

/-! ### Claim theorems -/

/-- Claim C1: the current streak returned by `progress_stats` equals the
count obtained by walking back from `today` one day at a time while each
day is in the completed-day set, stopping at the first missing day; in
particular the streak is 0 when `today` itself has no completed record. -/
theorem current_streak_walkback (records : List ProgressRec) (today : ℤ) (N : ℕ) :
    ((progress_stats records today).current_streak = N ↔
      (∀ k < N, today - (k : ℤ) ∈ completedDates records) ∧
        today - (N : ℤ) ∉ completedDates records) ∧
    (today ∉ completedDates records → (progress_stats records today).current_streak = 0) := by
  obtain ⟨M, hM, hmem, hout, heq⟩ := streak_walkback (completedDates records) today
  have hs : (progress_stats records today).current_streak = M := heq
  have key : ∀ N' : ℕ, ((progress_stats records today).current_streak = N' ↔
      (∀ k < N', today - (k : ℤ) ∈ completedDates records) ∧
        today - (N' : ℤ) ∉ completedDates records) := by
    intro N'
    constructor
    · intro h
      have hNM : N' = M := by rw [← h, hs]
      subst hNM
      exact ⟨hmem, hout⟩
    · intro h
      have hNM : N' = M :=
        walkback_unique (completedDates records) today N' M h.1 h.2 hmem hout
      rw [hNM]
      exact hs
  refine ⟨key N, fun h => (key 0).mpr ⟨fun k hk => absurd hk (Nat.not_lt_zero k), ?_⟩⟩
  simpa using h

theorem current_streak_walkback_witness :
    (progress_stats demoRecords demoToday).current_streak = 2 :=
  (current_streak_walkback demoRecords demoToday 2).1.mpr ⟨by decide, by decide⟩

/-- Claim C2: `days_completed` is the number of distinct parseable
calendar days having at least one record with `completed == true`, and a
duplicate record for a day already in that set leaves it unchanged. -/
theorem days_completed_distinct (records : List ProgressRec) (today : ℤ) :
    (progress_stats records today).days_completed = (specCompletedDays records).card ∧
    (∀ r d, parse_d r.date = some d → d ∈ specCompletedDays records →
      (progress_stats (r :: records) today).days_completed
        = (progress_stats records today).days_completed) := by
  constructor
  · show (completedDates records).card = _
    rw [completedDates_eq]
  · intro r d hparse hmem
    show (completedDates (r :: records)).card = (completedDates records).card
    rw [days_unchanged_of_mem records r d hparse hmem]

theorem days_completed_distinct_witness :
    (progress_stats (⟨.str "2025-01-02", true, 3⟩ :: demoRecords) demoToday).days_completed
      = (progress_stats demoRecords demoToday).days_completed :=
  (days_completed_distinct demoRecords demoToday).2 ⟨.str "2025-01-02", true, 3⟩
    (toOrdinal 2025 1 2) (by decide) (by decide)

/-- Claim C3: `total_points` sums `points_earned` over all records whose
date parses, regardless of the `completed` flag, and appending a
duplicate record for an already-completed day adds its points while
leaving `days_completed` unchanged. -/
theorem total_points_sums_all (records : List ProgressRec) (today : ℤ) :
    ((progress_stats records today).total_points
        = ((records.filter (fun r => (parse_d r.date).isSome)).map
            (fun r => r.points_earned)).sum) ∧
    (∀ r d, parse_d r.date = some d → r.completed = true →
      d ∈ completedDates records →
      (progress_stats (r :: records) today).total_points
          = (progress_stats records today).total_points + r.points_earned ∧
        (progress_stats (r :: records) today).days_completed
          = (progress_stats records today).days_completed) := by
  constructor
  · exact total_points_eq records
  · intro r d hparse hc hmem
    refine ⟨?_, ?_⟩
    · show ((sortedItems (r :: records)).map (fun i => i.points_earned)).sum = _
      rw [total_points_eq]
      show _ = ((sortedItems records).map (fun i => i.points_earned)).sum + _
      rw [total_points_eq]
      have hcons : parseableItems (r :: records) = r :: parseableItems records := by
        unfold parseableItems
        rw [List.filter_cons]
        simp [hparse]
      rw [hcons, List.map_cons, List.sum_cons]
      ring
    · show (completedDates (r :: records)).card = (completedDates records).card
      rw [days_unchanged_of_mem records r d hparse (completedDates_eq records ▸ hmem)]

theorem total_points_sums_all_witness :
    ((progress_stats (⟨.str "2025-01-01", true, 7⟩ :: demoRecords) demoToday).total_points
        = (progress_stats demoRecords demoToday).total_points + 7 ∧
      (progress_stats (⟨.str "2025-01-01", true, 7⟩ :: demoRecords) demoToday).days_completed
        = (progress_stats demoRecords demoToday).days_completed) :=
  (total_points_sums_all demoRecords demoToday).2 ⟨.str "2025-01-01", true, 7⟩
    (toOrdinal 2025 1 1) (by decide) (by decide) (by decide)

/-- Claim C4: the `total_amount` stored in the created order and returned
to the caller equals the sum of `qty * price` over the items (with the
source's defaults `qty = 1`, `price = 0`), rounded to two decimals. -/
theorem create_order_total (user_id : String) (items : List OrderItem) (currency : String) :
    ((create_order user_id items currency).1.total_amount
        = pyRound2 ((items.map (fun i => (i.qty.getD 1) * (i.price.getD 0))).sum)) ∧
    (create_order user_id items currency).2.total_amount
      = (create_order user_id items currency).1.total_amount := by
  constructor
  · show pyRound2 _ = _
    rw [foldl_items_sum, zero_add]
  · rfl

/-- Claim C5: a record whose date field does not parse is excluded from
all three outputs of `progress_stats` (which is total, so no error is
raised). -/
theorem malformed_day_excluded (l1 l2 : List ProgressRec) (r : ProgressRec) (today : ℤ)
    (h : parse_d r.date = none) :
    progress_stats (l1 ++ r :: l2) today = progress_stats (l1 ++ l2) today := by
  have hfil : parseableItems (l1 ++ r :: l2) = parseableItems (l1 ++ l2) := by
    unfold parseableItems
    rw [List.filter_append, List.filter_append, List.filter_cons]
    simp [h]
  simp only [progress_stats, completedDates, sortedItems, hfil]

theorem malformed_day_excluded_witness :
    progress_stats ([] ++ ProgressRec.mk (.str "not-a-date") true 99 :: demoRecords) demoToday
      = progress_stats ([] ++ demoRecords) demoToday :=
  malformed_day_excluded [] demoRecords ⟨.str "not-a-date", true, 99⟩ demoToday (by decide)

/-- Claim C6: for the single item with `qty = 2`, `price = 3.005`, the
computed order total is exactly 6.01 (the exact sum is 6.01, which two-
decimal rounding leaves unchanged under either convention; CPython's
`round` on the closest binary double likewise returns 6.01). -/
theorem order_total_half_cent :
    (create_order "u1" [{ qty := some 2, price := some 3.005 }] "USD").2.total_amount
      = 6.01 := by
  show pyRound2 (0 + 2 * 3.005) = 6.01
  norm_num [pyRound2, roundHalfEven]

/-- Claim C7: every completion action stores a record carrying exactly 10
`points_earned` and reports `points_earned = 10`, whatever the user and
optional day. -/
theorem complete_today_fixed_points (user_id : String) (payload_date : Option ℤ) (today : ℤ) :
    (complete_today user_id payload_date today).1.points_earned = 10 ∧
    (complete_today user_id payload_date today).2.points_earned = 10 :=
  ⟨rfl, rfl⟩

/-- Claim C8: creating an order with an empty item list yields a
`total_amount` of 0.00. -/
theorem order_total_empty :
    (create_order "u1" [] "USD").2.total_amount = 0 := by
  show pyRound2 0 = 0
  norm_num [pyRound2, roundHalfEven]

/-- Claim C9: `progress_stats` is invariant under permutation of the
input records. -/
theorem stats_perm_invariant (records records' : List ProgressRec) (today : ℤ)
    (h : records.Perm records') :
    progress_stats records today = progress_stats records' today := by
  have hperm : (parseableItems records).Perm (parseableItems records') := h.filter _
  have hcd : completedDates records = completedDates records' := by
    rw [completedDates_eq, completedDates_eq]
    unfold specCompletedDays
    exact List.toFinset.ext_iff.mpr fun x => (h.filterMap _).mem_iff
  have htp : ((sortedItems records).map (fun i => i.points_earned)).sum
      = ((sortedItems records').map (fun i => i.points_earned)).sum := by
    rw [total_points_eq, total_points_eq]
    exact (hperm.map _).sum_eq
  simp only [progress_stats, hcd, htp]

theorem stats_perm_invariant_witness :
    progress_stats demoRecords demoToday = progress_stats demoRecordsRev demoToday :=
  stats_perm_invariant demoRecords demoRecordsRev demoToday (by decide)

/-- Claim C10: the current streak never exceeds `days_completed`. -/
theorem current_streak_le_days_completed (records : List ProgressRec) (today : ℤ) :
    (progress_stats records today).current_streak
      ≤ (progress_stats records today).days_completed := by
  obtain ⟨M, hM, _, _, heq⟩ := streak_walkback (completedDates records) today
  show streakFuel ((completedDates records).card + 1) (completedDates records) today
      ≤ (completedDates records).card
  rw [heq]
  exact hM

end Sanctuary
